import Mathlib

/-!
# Verification of the Sysiphe email-discovery pipeline

Shallow embedding of the core data transformations of the Sysiphe v2
repository (company-name → domain candidates → MX/HTTP verification →
email harvesting → scoring), together with theorems settling the
specification's claims about them.

External capabilities (DNS resolution, HTTP fetch, the search provider,
the regex engine) are passed as explicit function parameters; everything
else is translated directly from the Python sources:

* `V1`     — src/guess/sysiphe_guess_emails.py
* `V2`     — src/guess/sysiphe_guess_emails_v2.py
* `GV`     — src/guess/sysiphe_guess_verify_email.py
* `Scrape` — src/pipeline_100%/sysiphe_scrape_emails_from_sites.py
* `Search` — src/search/sysiphe_search_email.py

Python `str` operations are embedded as computations on `String`
(i.e. on its `List Char` of characters), so that every definition
evaluates by kernel reduction. Python `set` accumulation is embedded as
an insertion-ordered duplicate-free list (`pyInsert`).
-/

/-! ## Python string primitives -/

/-- Embedding of Python `str.lower()` (ASCII case folding). -/
def pyLower (s : String) : String := ⟨s.data.map Char.toLower⟩

/-- Characters removed by Python `str.strip()` with no argument. -/
def isPyWs (c : Char) : Bool :=
  c == ' ' || c == '\t' || c == '\n' || c == '\r' || c == '\x0b' || c == '\x0c'

/-- Embedding of Python `str.strip()`. -/
def pyStrip (s : String) : String :=
  ⟨((s.data.dropWhile isPyWs).reverse.dropWhile isPyWs).reverse⟩

/-- Embedding of Python `a or b` on strings (empty string is falsy). -/
def pyOr (a b : String) : String := if a = "" then b else a

/-- Split a character list at every occurrence of `sep`, keeping empty
pieces, as Python `str.split(sep)` does.  The result is never empty. -/
def splitChar (sep : Char) : List Char → List (List Char)
  | [] => [[]]
  | c :: cs =>
    let r := splitChar sep cs
    if c == sep then [] :: r else (c :: r.headD []) :: r.tail

/-- Embedding of Python `norm.split()` on a whitespace-collapsed string
(pieces are separated by single spaces; empty pieces are dropped, as
`str.split()` with no argument does). -/
def tokenize (norm : String) : List String :=
  ((splitChar ' ' norm.data).map (fun cs => (⟨cs⟩ : String))).filter (fun t => t != "")

/-- Split off everything before the first occurrence of `sep`. -/
def breakAtChar (sep : Char) : List Char → Option (List Char × List Char)
  | [] => none
  | c :: cs =>
    if c == sep then some ([], cs)
    else
      match breakAtChar sep cs with
      | none => none
      | some (a, b) => some (c :: a, b)

/-- Embedding of Python `s.split(sep, 1)` for a one-character separator. -/
def pySplit1 (s : String) (sep : Char) : List String :=
  match breakAtChar sep s.data with
  | none => [s]
  | some (a, b) => [⟨a⟩, ⟨b⟩]

/-- Does `p` occur at the front of the second list? -/
def listHasPfx : List Char → List Char → Bool
  | [], _ => true
  | _ :: _, [] => false
  | p :: ps, c :: cs => p == c && listHasPfx ps cs

/-- Does `pat` occur as a contiguous run somewhere in the list? -/
def containsSub (pat : List Char) : List Char → Bool
  | [] => listHasPfx pat []
  | c :: cs => listHasPfx pat (c :: cs) || containsSub pat cs

/-- Embedding of the Python substring test `sub in hay`. -/
def containsStr (hay sub : String) : Bool := containsSub sub.data hay.data

/-- Embedding of Python `s.endswith(suf)`. -/
def strEndsWith (s suf : String) : Bool :=
  decide (suf.data.length ≤ s.data.length) &&
    (s.data.drop (s.data.length - suf.data.length) == suf.data)

/-- Replace every occurrence of `pat` (non-empty in all uses) by `repl`,
as Python `str.replace` does.  `fuel` bounds the recursion depth; it is
initialized to the text length, which suffices because every step consumes
at least one character. -/
def replaceAll (pat repl : List Char) : Nat → List Char → List Char
  | 0, l => l
  | _ + 1, [] => []
  | fuel + 1, c :: cs =>
    if listHasPfx pat (c :: cs) && !(pat == []) then
      repl ++ replaceAll pat repl fuel (cs.drop (pat.length - 1))
    else
      c :: replaceAll pat repl fuel cs

/-- Embedding of Python `s.replace(pat, repl)`. -/
def pyReplace (s pat repl : String) : String :=
  ⟨replaceAll pat.data repl.data s.data.length s.data⟩

/-- Embedding of Python `"".join(tokens)`. -/
def joinedOf : List String → String
  | [] => ""
  | t :: rest => t ++ joinedOf rest

/-- Embedding of Python `"-".join(tokens)`. -/
def dashedOf : List String → String
  | [] => ""
  | [t] => t
  | t :: ts => t ++ "-" ++ dashedOf ts

/-- Python `set.add` modelled on an insertion-ordered duplicate-free
list.  (CPython leaves set iteration order unspecified; the embedding
fixes it to insertion order.) -/
def pyInsert (l : List String) (x : String) : List String :=
  if x ∈ l then l else l ++ [x]

/-- Strict lexicographic comparison of character lists by code point:
Python's `<` on strings. -/
def lexLt : List Char → List Char → Bool
  | [], [] => false
  | [], _ :: _ => true
  | _ :: _, [] => false
  | a :: as, b :: bs => if a < b then true else if b < a then false else lexLt as bs

/-- Python's `<=` on strings. -/
def strLe (a b : String) : Bool := lexLt a.data b.data || a == b

/-- Embedding of Python `sorted(...)` on strings. -/
def pySorted (l : List String) : List String :=
  List.insertionSort (fun a b => strLe a b = true) l

/-! ## `V2` — src/guess/sysiphe_guess_emails_v2.py -/

namespace V2

/-- `PREFERRED_PREFIXES_AU`: preferred local parts, in priority order. -/
def PREFERRED_PREFIXES_AU : List String :=
  ["enquiries", "enquiry", "contact", "info", "hello", "sales", "support"]

/-- `DOMAIN_SUFFIXES_AU`: configured domain suffixes, in priority order. -/
def DOMAIN_SUFFIXES_AU : List String := [".com.au", ".net.au", ".org.au", ".com"]

/-- `GENERIC_TOKENS`: single tokens considered too generic to be a domain core. -/
def GENERIC_TOKENS : List String :=
  ["insurance", "steel", "hardware", "investments", "finance", "solutions", "services", "group"]

/-- `domain_core_candidates(norm)`: cores built from the tokens of the
normalized name, collected into a set (embedded as an insertion-ordered
list, see `pyInsert`). -/
def domain_core_candidates (norm : String) : List String :=
  let tokens := tokenize norm
  if tokens = [] then []
  else if tokens.length = 1 ∧ tokens.headD "" ∈ GENERIC_TOKENS then []
  else
    let joined := joinedOf tokens
    let dashed := dashedOf tokens
    let cores0 : List String := []
    let cores1 := if 4 ≤ joined.length ∧ joined.length ≤ 24 then pyInsert cores0 joined else cores0
    let cores2 := if 4 ≤ dashed.length ∧ dashed.length ≤ 28 then pyInsert cores1 dashed else cores1
    let cores3 :=
      if 2 ≤ tokens.length then
        let core2 := joinedOf (tokens.take 2)
        if 4 ≤ core2.length ∧ core2.length ≤ 18 then pyInsert cores2 core2 else cores2
      else cores2
    cores3

/-- `domain_candidates(cores)`: cross every core with every suffix. -/
def domain_candidates (cores : List String) : List String :=
  cores.flatMap (fun core => DOMAIN_SUFFIXES_AU.map (fun suf => core ++ suf))

/-- `list(cores)` under an arbitrary set-iteration order: CPython does not
specify the iteration order of a `set` (string hashing is randomized per
process), so the order in which the core set is listed is taken as a
parameter `enum`, constrained where used to permute its input.
`domain_core_candidates` supplies the set's contents (insertion-ordered,
see `pyInsert`); `enum` re-orders them as the hash table might. -/
def domain_core_candidates_iter (enum : List String → List String) (norm : String) :
    List String :=
  enum (domain_core_candidates norm)

/-- `best_email(domain)`: the loop over `PREFERRED_PREFIXES_AU` returns on
its first iteration; the final line is the `info@` fallback. -/
def best_email (domain : String) : String :=
  match PREFERRED_PREFIXES_AU with
  | p :: _ => p ++ "@" ++ domain
  | [] => "info" ++ "@" ++ domain

/-- `is_obvious_sink(mx_list)`: the source always returns False. -/
def is_obvious_sink (_mx_list : List String) : Bool := false

/-- `confidence_score(domain, norm_name, mx_list, site_ok)`. -/
def confidence_score (domain norm_name : String) (mx_list : List String)
    (site_ok : Bool) : Nat :=
  let score : Nat := 0
  let score := if mx_list ≠ [] then score + 40 else score
  let score := if site_ok then score + 30 else score
  let tokens := tokenize norm_name
  let score :=
    if tokens ≠ [] then
      let core : String := ⟨(splitChar '.' domain.data).headD []⟩
      let score := if containsStr core (tokens.headD "") then score + 20 else score
      let score :=
        if 2 ≤ tokens.length ∧ containsStr core (tokens.getD 1 "") then score + 10 else score
      score
    else score
  min score 100

/-- The fields `main` collects for the best candidate of one company. -/
structure BestRec where
  guessed_domain : String
  email : String
  confidence : Nat
deriving DecidableEq

/-- Update of `best` in the v2 main loop: a new candidate replaces the
current best only when its score strictly exceeds it. -/
def betterOf (best : Option BestRec) (cand : BestRec) : Option BestRec :=
  match best with
  | none => some cand
  | some b => if cand.confidence > b.confidence then some cand else some b

/-- The v2 per-company candidate loop (`main`, lines 178–204).  Every
candidate is probed (`tested += 1; mx_list = mx_hosts(dom)`); the second
component is the trace of domains on which the DNS capability `mx` was
invoked. -/
def v2ScanAux (mx : String → List String) (site : String → Bool) (norm : String) :
    List String → Option BestRec → Option BestRec × List String
  | [], best => (best, [])
  | dom :: rest, best =>
    let mx_list := mx dom
    let best' :=
      if mx_list = [] then best
      else if is_obvious_sink mx_list then best
      else
        let site_ok := site dom
        let score := confidence_score dom norm mx_list site_ok
        betterOf best { guessed_domain := dom, email := best_email dom, confidence := score }
    let r := v2ScanAux mx site norm rest best'
    (r.1, dom :: r.2)

/-- Candidate scan for one company, started from `best = None` on the
generated candidate list. -/
def v2Scan (mx : String → List String) (site : String → Bool) (norm : String) :
    Option BestRec × List String :=
  v2ScanAux mx site norm (domain_candidates (domain_core_candidates norm)) none

/-- DNS probe trace of a whole run over the (already normalized) company
names: `main` regenerates the candidates row by row and calls `mx_hosts`
afresh on every candidate — the source keeps no cache. -/
def runProbes (mx : String → List String) (site : String → Bool)
    (norms : List String) : List String :=
  (norms.map (fun n => (v2Scan mx site n).2)).flatten

end V2

/-! ## `V1` — src/guess/sysiphe_guess_emails.py -/

namespace V1

/-- `DOMAIN_SUFFIXES_AU` of the v1 guesser. -/
def DOMAIN_SUFFIXES_AU : List String := [".com.au", ".net.au", ".org.au", ".com"]

/-- `generate_domain_candidates(base)`: joined and dashed cores (a Python
set literal, embedded insertion-ordered), kept when at least 4 characters
long, crossed with every suffix into a set. -/
def generate_domain_candidates (base : String) : List String :=
  let tokens := tokenize base
  let joined := joinedOf tokens
  let dashed := dashedOf tokens
  let cores := pyInsert (pyInsert [] joined) dashed
  cores.foldl
    (fun acc core =>
      if 4 ≤ core.length then
        DOMAIN_SUFFIXES_AU.foldl (fun acc2 suf => pyInsert acc2 (core ++ suf)) acc
      else acc)
    []

/-- The v1 per-company domain loop (`main`, lines 85–96): stop at the
first candidate with an MX record (`break`).  Returns the selected domain
and the list of candidates probed, in order. -/
def v1Scan (hasMx : String → Bool) : List String → Option String × List String
  | [] => (none, [])
  | d :: rest =>
    if hasMx d then (some d, [d])
    else
      let r := v1Scan hasMx rest
      (r.1, d :: r.2)

end V1

/-! ## Email extraction — src/guess/sysiphe_guess_verify_email.py and
src/pipeline_100%/sysiphe_scrape_emails_from_sites.py -/

/-- Shared body of `extract_emails` in both harvesters: the regex matches
are lower-cased into a set, matches containing a placeholder marker are
discarded, the survivors are returned sorted.  The regex engine is
abstracted: `matches` is the list of raw matches found in the page text. -/
def extractClean (hints : List String) (ms : List String) : List String :=
  let emails := (ms.map pyLower).dedup
  let out := emails.filter (fun e => !(hints.any (fun bad => containsStr e bad)))
  pySorted out

namespace GV

/-- `BAD_EMAIL_HINTS` of sysiphe_guess_verify_email.py. -/
def BAD_EMAIL_HINTS : List String :=
  ["example.com", "yourcompany.com", "email.com", "test.com", "domain.com"]

/-- `extract_emails(text)` of sysiphe_guess_verify_email.py. -/
def extract_emails (ms : List String) : List String :=
  extractClean BAD_EMAIL_HINTS ms

end GV

namespace Scrape

/-- `BAD_EMAIL_HINTS` of sysiphe_scrape_emails_from_sites.py. -/
def BAD_EMAIL_HINTS : List String := ["example.com", "yourcompany.com", "email.com"]

/-- `extract_emails(html)` of sysiphe_scrape_emails_from_sites.py. -/
def extract_emails (ms : List String) : List String :=
  extractClean BAD_EMAIL_HINTS ms

end Scrape

/-! ## `Search` — src/search/sysiphe_search_email.py -/

namespace Search

/-- `LOCALPART_PRIORITY`: preferred local parts, in priority order. -/
def LOCALPART_PRIORITY : List String :=
  ["contact", "hello", "info", "support", "sales", "admin", "enquiries", "enquiry", "privacy"]

/-- The free-provider set of `score_email`. -/
def FREE_PROVIDERS : List String :=
  ["gmail.com", "googlemail.com", "outlook.com", "hotmail.com", "live.com",
   "yahoo.com", "yahoo.com.au", "icloud.com", "aol.com", "proton.me", "protonmail.com"]

/-- `normalize_email(email)`: strip, then lower-case. -/
def normalize_email (email : String) : String := pyLower (pyStrip email)

/-- `domain_from_email(email)`: the part after the first `@`, lowered and
stripped; empty when there is no `@`. -/
def domain_from_email (email : String) : String :=
  match pySplit1 email '@' with
  | [_, b] => pyStrip (pyLower b)
  | _ => ""

/-- The localpart-priority loop of `score_email`: the first matching entry
together with its rank. -/
def lpScan (localpart : String) : Nat → List String → Option (Nat × String)
  | _, [] => none
  | i, lp :: rest => if localpart = lp then some (i, lp) else lpScan localpart (i + 1) rest

/-- `score_email(email, expected_domain)`: integer score (clamped at the
end) and the comma-joined reason tags. -/
def score_email (email : String) (expected_domain : Option String) : Int × String :=
  let e := normalize_email email
  let dom := domain_from_email e
  let localpart := (pySplit1 e '@').headD ""
  let sr : Int × List String := (50, [])
  let sr := if dom ∈ FREE_PROVIDERS then (sr.1 - 35, sr.2 ++ ["free_provider"]) else sr
  let sr :=
    match expected_domain with
    | none => sr
    | some ed =>
      if ed = "" then sr
      else
        let exp := pyStrip (pyLower ed)
        let exp := pyReplace (pyReplace exp "http://" "") "https://" ""
        let exp := (pySplit1 exp '/').headD ""
        let exp : String := ⟨exp.data.dropWhile (fun c => c == 'w' || c == '.')⟩
        if dom = exp then (sr.1 + 35, sr.2 ++ ["domain_match"])
        else if strEndsWith dom ("." ++ exp) then (sr.1 + 20, sr.2 ++ ["subdomain_match"])
        else (sr.1 - 10, sr.2 ++ ["domain_mismatch"])
  let sr :=
    match lpScan localpart 0 LOCALPART_PRIORITY with
    | none => sr
    | some (i, lp) => (sr.1 + max 0 (25 - 3 * (i : Int)), sr.2 ++ ["lp=" ++ lp])
  (max 0 (min 100 sr.1),
    if sr.2 = [] then "generic" else String.intercalate "," sr.2)

/-- The `FoundEmail` dataclass. -/
structure FoundEmail where
  email : String
  source_url : String
  confidence : Int
  reason : String
deriving DecidableEq

/-- `pick_best_email(emails, expected_domain, source_url)`: fold of the
strict-improvement update over the harvested email set (embedded as a
list). -/
def pick_best_email (emails : List String) (expected_domain : Option String)
    (source_url : String) : Option FoundEmail :=
  emails.foldl
    (fun best em =>
      let s := score_email em expected_domain
      match best with
      | none =>
        some { email := normalize_email em, source_url := source_url,
               confidence := s.1, reason := s.2 }
      | some b =>
        if s.1 > b.confidence then
          some { email := normalize_email em, source_url := source_url,
                 confidence := s.1, reason := s.2 }
        else some b)
    none

/-- `extract_emails_from_text(text)`: the raw regex matches as a set —
no lower-casing and no placeholder filtering happen on this path.  The
regex engine is abstracted: `matches` is the list of raw matches. -/
def extract_emails_from_text (ms : List String) : List String :=
  ms.dedup

/-- `build_query(legal_name, state, postcode)`. -/
def build_query (legal_name state postcode : String) : String :=
  let name := pyStrip legal_name
  let extra := String.intercalate " " (([state, postcode].map pyStrip).filter (fun x => x != ""))
  if extra ≠ "" then "\"" ++ name ++ "\" " ++ extra ++ " contact email"
  else "\"" ++ name ++ "\" contact email"

/-- One input CSV row (the fields `main` reads). -/
structure InRow where
  abn : String
  legal_name : String
  business_name : String
  main_state : String
  main_postcode : String
deriving DecidableEq

/-- One output CSV row of `main`. -/
structure OutRow where
  abn : String
  legal_name : String
  email : String
  confidence : Int
  source_url : String
  reason : String
  query : String
deriving DecidableEq

/-- The fetch-and-extract loop of `main` (lines 249–271): fetch up to
`links` pages; `fetch_page` catches its own errors and is embedded as an
`Option`-returning capability; empty pages and pages with no matches are
skipped; the best-scoring candidate is kept and the loop stops early once
its confidence reaches 85. -/
def fetchLoop (fetchP : String → Option String) (regexM : String → List String)
    (links : Nat) (expected : Option String) :
    List String → Nat → Option FoundEmail → Option FoundEmail
  | [], _, best => best
  | url :: rest, fetched, best =>
    if links ≤ fetched then best
    else
      let fetched' := fetched + 1
      match fetchP url with
      | none => fetchLoop fetchP regexM links expected rest fetched' best
      | some html =>
        if html = "" then fetchLoop fetchP regexM links expected rest fetched' best
        else
          let emails := extract_emails_from_text (regexM html)
          if emails = [] then fetchLoop fetchP regexM links expected rest fetched' best
          else
            let candidate := pick_best_email emails expected url
            let best' : Option FoundEmail :=
              match candidate, best with
              | none, b => b
              | some c, none => some c
              | some c, some b => if c.confidence > b.confidence then some c else some b
            match best' with
            | some b =>
              if 85 ≤ b.confidence then some b
              else fetchLoop fetchP regexM links expected rest fetched' best'
            | none => fetchLoop fetchP regexM links expected rest fetched' best'

/-- Per-company body of `main` (lines 205–295): build the query, call the
search capability, record any exception it raises as a `search_error` row
(the `Except` error value carries the raised exception's type name, as
`type(e).__name__` does), otherwise fetch result pages and report the best
candidate or `not_found`.  The expected-domain CSV field is not configured
by default, so `expected_domain` is `None`. -/
def processRow (search : String → Except String (List String))
    (fetchP : String → Option String) (regexM : String → List String)
    (links : Nat) (row : InRow) : OutRow :=
  let abn := pyStrip row.abn
  let legal_name := pyStrip (pyOr row.legal_name row.business_name)
  let state := pyStrip row.main_state
  let postcode := pyStrip row.main_postcode
  if legal_name = "" then
    { abn := abn, legal_name := "", email := "", confidence := 0,
      source_url := "", reason := "missing_legal_name", query := "" }
  else
    let query := build_query legal_name state postcode
    match search query with
    | .error en =>
      { abn := abn, legal_name := legal_name, email := "", confidence := 0,
        source_url := "", reason := "search_error:" ++ en, query := query }
    | .ok urls =>
      match fetchLoop fetchP regexM links none urls 0 none with
      | some best =>
        { abn := abn, legal_name := legal_name, email := best.email,
          confidence := best.confidence, source_url := best.source_url,
          reason := best.reason, query := query }
      | none =>
        { abn := abn, legal_name := legal_name, email := "", confidence := 0,
          source_url := "", reason := "not_found", query := query }

/-- The batch loop of `main`: one result row is appended per input row;
every per-company outcome (including `search_error`) ends with `continue`,
so no iteration aborts the loop. -/
def runBatch (search : String → Except String (List String))
    (fetchP : String → Option String) (regexM : String → List String)
    (links : Nat) (rows : List InRow) : List OutRow :=
  rows.foldl (fun acc row => acc ++ [processRow search fetchP regexM links row]) []

end Search

/-! ## General lemmas -/

theorem strDataInj {a b : String} (h : a.data = b.data) : a = b := by
  cases a; cases b; exact congrArg String.mk h

theorem pyInsert_nodup {l : List String} (h : l.Nodup) (x : String) :
    (pyInsert l x).Nodup := by
  unfold pyInsert
  split_ifs with hm
  · exact h
  · simpa [List.nodup_append] using ⟨h, hm⟩

theorem mem_pyInsert {l : List String} {x y : String} (h : y ∈ pyInsert l x) :
    y ∈ l ∨ y = x := by
  unfold pyInsert at h
  split_ifs at h with hm
  · exact Or.inl h
  · simpa using h

/-- Characters of the joined core come from the tokens. -/
theorem mem_data_joinedOf {c : Char} :
    ∀ {l : List String}, c ∈ (joinedOf l).data → ∃ t ∈ l, c ∈ t.data := by
  intro l
  induction l with
  | nil => intro h; simp [joinedOf] at h
  | cons t rest ih =>
    intro h
    rw [joinedOf, String.data_append] at h
    rcases List.mem_append.mp h with h | h
    · exact ⟨t, by simp, h⟩
    · rcases ih h with ⟨u, hu, hc⟩
      exact ⟨u, by simp [hu], hc⟩

/-- Characters of the dashed core are a hyphen or come from the tokens. -/
theorem mem_data_dashedOf {c : Char} :
    ∀ {l : List String}, c ∈ (dashedOf l).data → c = '-' ∨ ∃ t ∈ l, c ∈ t.data
  | [], h => by simp [dashedOf] at h
  | [t], h => Or.inr ⟨t, by simp, by simpa [dashedOf] using h⟩
  | t :: t' :: ts, h => by
    rw [show dashedOf (t :: t' :: ts) = t ++ "-" ++ dashedOf (t' :: ts) from rfl,
      String.data_append, String.data_append] at h
    rcases List.mem_append.mp h with h | h
    · rcases List.mem_append.mp h with h | h
      · exact Or.inr ⟨t, by simp, h⟩
      · left
        simpa using h
    · rcases mem_data_dashedOf h with h | ⟨u, hu, hc⟩
      · exact Or.inl h
      · exact Or.inr ⟨u, by simp [hu], hc⟩

/-- A dot-free core followed by a dot-initial suffix determines both. -/
theorem core_suffix_inj {c1 c2 s1 s2 : String}
    (hd1 : '.' ∉ c1.data) (hd2 : '.' ∉ c2.data)
    (hs1 : s1.data.head? = some '.') (hs2 : s2.data.head? = some '.')
    (h : c1 ++ s1 = c2 ++ s2) : c1 = c2 ∧ s1 = s2 := by
  have hdata : c1.data ++ s1.data = c2.data ++ s2.data := by
    simpa [String.data_append] using congrArg String.data h
  rcases List.append_eq_append_iff.mp hdata with ⟨t, ht1, ht2⟩ | ⟨t, ht1, ht2⟩
  · cases t with
    | nil =>
      simp only [List.append_nil] at ht1 ht2
      exact ⟨strDataInj ht1.symm, strDataInj ht2⟩
    | cons a t' =>
      exfalso
      have ha : a = '.' := by
        rw [ht2] at hs1
        simpa using hs1
      exact hd2 (by rw [ht1]; simp [ha])
  · cases t with
    | nil =>
      simp only [List.append_nil] at ht1 ht2
      exact ⟨strDataInj ht1, strDataInj ht2.symm⟩
    | cons a t' =>
      exfalso
      have ha : a = '.' := by
        rw [ht2] at hs2
        simpa using hs2
      exact hd1 (by rw [ht1]; simp [ha])

namespace V2

/-- Every member of `domain_core_candidates norm` is the joined core, the
dashed core, or the two-leading-tokens core, and satisfies the length
guard under which it was inserted. -/
theorem mem_core_cases {norm x : String} (hx : x ∈ domain_core_candidates norm) :
    (x = joinedOf (tokenize norm) ∧ 4 ≤ x.length ∧ x.length ≤ 24) ∨
    (x = dashedOf (tokenize norm) ∧ 4 ≤ x.length ∧ x.length ≤ 28) ∨
    (x = joinedOf ((tokenize norm).take 2) ∧ 4 ≤ x.length ∧ x.length ≤ 18 ∧
      2 ≤ (tokenize norm).length) := by
  rw [domain_core_candidates] at hx
  simp only [] at hx
  split_ifs at hx
  all_goals repeat' rcases mem_pyInsert hx with hx | rfl
  all_goals first
    | exact absurd hx (List.not_mem_nil _)
    | exact Or.inl ⟨rfl, by omega, by omega⟩
    | exact Or.inr (Or.inl ⟨rfl, by omega, by omega⟩)
    | exact Or.inr (Or.inr ⟨rfl, by omega, by omega, by omega⟩)

/-- The core list is duplicate-free (it is accumulated as a Python set). -/
theorem cores_nodup (norm : String) : (domain_core_candidates norm).Nodup := by
  rw [domain_core_candidates]
  simp only []
  split_ifs
  all_goals
    repeat'
      first
      | exact List.nodup_nil
      | apply pyInsert_nodup

/-- No core contains a dot when no token does. -/
theorem cores_dot_free {norm x : String} (hdot : ∀ t ∈ tokenize norm, '.' ∉ t.data)
    (hx : x ∈ domain_core_candidates norm) : '.' ∉ x.data := by
  intro hc
  rcases mem_core_cases hx with ⟨he, -, -⟩ | ⟨he, -, -⟩ | ⟨he, -, -, -⟩
  · rcases mem_data_joinedOf (he ▸ hc) with ⟨t, ht, hct⟩
    exact hdot t ht hct
  · rcases mem_data_dashedOf (he ▸ hc) with h | ⟨t, ht, hct⟩
    · simp at h
    · exact hdot t ht hct
  · rcases mem_data_joinedOf (he ▸ hc) with ⟨t, ht, hct⟩
    exact hdot t (List.mem_of_mem_take ht) hct

/-- Every configured suffix begins with a dot. -/
theorem suffixes_dot_initial : ∀ suf ∈ DOMAIN_SUFFIXES_AU, suf.data.head? = some '.' := by
  decide

/-- The crossed candidate list is duplicate-free for any enumeration `cs`
of the core set, whenever no token contains a dot (as is the case for
tokens of a normalized name, whose non-alphanumeric characters were
stripped). -/
theorem candidates_nodup_of_perm {norm : String} {cs : List String}
    (hp : cs.Perm (domain_core_candidates norm))
    (hdot : ∀ t ∈ tokenize norm, '.' ∉ t.data) :
    (domain_candidates cs).Nodup := by
  rw [domain_candidates]
  refine List.nodup_flatMap.mpr ⟨?_, ?_⟩
  · intro core _
    refine List.Nodup.map ?_ (by decide)
    intro a b hab
    have h := congrArg String.data hab
    simp only [String.data_append] at h
    exact strDataInj (List.append_cancel_left h)
  · have hnd : cs.Nodup := (hp.nodup_iff).mpr (cores_nodup norm)
    refine List.Pairwise.imp_of_mem ?_ hnd
    intro a b ha hb hne
    intro x hx1 hx2
    rcases List.mem_map.mp hx1 with ⟨s1, hs1, rfl⟩
    rcases List.mem_map.mp hx2 with ⟨s2, hs2, heq⟩
    have h := core_suffix_inj (cores_dot_free hdot (hp.subset hb))
      (cores_dot_free hdot (hp.subset ha))
      (suffixes_dot_initial s2 hs2) (suffixes_dot_initial s1 hs1) heq
    exact hne h.1.symm

end V2

namespace V2

/-- Counterexample to C3 as stated: CPython leaves set iteration order
unspecified (string hashes are randomized per process), so `list(cores)`
may enumerate the core set in any order.  Under the admissible reversed
enumeration — a permutation of the set — the two-token abbreviation core
"alphabeta" comes first and the joined core "alphabetagamma" comes last,
violating the claimed "full joined/dashed cores before the two-token
abbreviation core" order. -/
theorem C3_counterexample :
    domain_core_candidates_iter List.reverse "alpha beta gamma" =
      ["alphabeta", "alpha-beta-gamma", "alphabetagamma"] ∧
    (domain_core_candidates_iter List.reverse "alpha beta gamma").headD "" =
      joinedOf ((tokenize "alpha beta gamma").take 2) ∧
    joinedOf (tokenize "alpha beta gamma") ∈
      domain_core_candidates_iter List.reverse "alpha beta gamma" ∧
    (domain_core_candidates_iter List.reverse "alpha beta gamma").Perm
      (domain_core_candidates "alpha beta gamma") :=
  ⟨by decide, by decide, by decide,
    (domain_core_candidates "alpha beta gamma").reverse_perm⟩

/-- Claim C3 (amended): with the set-iteration order fixed — as it is
within one process — the generator is a pure function of its input, and
for every admissible enumeration (any permutation of the core set) the
core list and the crossed candidate list are deduplicated and the core
set itself is enumeration-independent; the relative order of the cores,
in particular the position of the two-token abbreviation core, follows
the enumeration and is not otherwise guaranteed. -/
theorem C3_generator_set_stable_dedup (enum : List String → List String)
    (henum : ∀ l : List String, (enum l).Perm l) (norm : String)
    (hdot : ∀ t ∈ tokenize norm, '.' ∉ t.data) :
    (domain_core_candidates_iter enum norm).Perm (domain_core_candidates norm) ∧
    (domain_core_candidates_iter enum norm).Nodup ∧
    (domain_candidates (domain_core_candidates_iter enum norm)).Nodup := by
  refine ⟨henum _, ?_, ?_⟩
  · exact ((henum _).nodup_iff).mpr (cores_nodup norm)
  · exact candidates_nodup_of_perm (henum _) hdot

/-- Witness for the amended C3: the reversed enumeration of the cores of
"alpha beta gamma". -/
theorem C3_generator_set_stable_dedup_witness :
    (domain_core_candidates_iter List.reverse "alpha beta gamma").Perm
      (domain_core_candidates "alpha beta gamma") ∧
    (domain_core_candidates_iter List.reverse "alpha beta gamma").Nodup ∧
    (domain_candidates (domain_core_candidates_iter List.reverse "alpha beta gamma")).Nodup :=
  C3_generator_set_stable_dedup List.reverse (fun l => l.reverse_perm)
    "alpha beta gamma" (by decide)

/-- Every candidate of the v2 generator decomposes as an accepted core
followed by a configured suffix, with the core's length in the inclusive
window 4..28; only the hyphenated (dashed) core may exceed the joined
ceiling of 24, the two-token abbreviation core being bounded by 18 ≤ 24. -/
theorem candidate_core_bounds {norm cand : String}
    (hc : cand ∈ domain_candidates (domain_core_candidates norm)) :
    ∃ core suf, core ∈ domain_core_candidates norm ∧ suf ∈ DOMAIN_SUFFIXES_AU ∧
      cand = core ++ suf ∧ 4 ≤ core.length ∧ core.length ≤ 28 ∧
      (core.length ≤ 24 ∨ core = dashedOf (tokenize norm)) := by
  rw [domain_candidates] at hc
  rcases List.mem_flatMap.mp hc with ⟨core, hcore, hmap⟩
  rcases List.mem_map.mp hmap with ⟨suf, hsuf, rfl⟩
  refine ⟨core, suf, hcore, hsuf, rfl, ?_⟩
  rcases mem_core_cases hcore with ⟨_, h1, h2⟩ | ⟨he, h1, h2⟩ | ⟨_, h1, h2, _⟩
  · exact ⟨h1, by omega, Or.inl h2⟩
  · exact ⟨h1, h2, Or.inr he⟩
  · exact ⟨h1, by omega, Or.inl (by omega)⟩

/-- Claim C9: an empty token list, or a single token from `GENERIC_TOKENS`
(which contains "group"), yields no domain cores; in particular generating
from the single token "group" returns the empty list. -/
theorem C9_generic_single_token_fails_closed :
    (∀ norm, tokenize norm = [] → domain_core_candidates norm = []) ∧
    (∀ norm t, tokenize norm = [t] → t ∈ GENERIC_TOKENS → domain_core_candidates norm = []) ∧
    domain_core_candidates "group" = [] := by
  refine ⟨?_, ?_, by decide⟩
  · intro norm h
    rw [domain_core_candidates]
    simp only []
    rw [if_pos h]
  · intro norm t h hg
    have h1 : ¬ tokenize norm = [] := by rw [h]; simp
    have h2 : (tokenize norm).length = 1 ∧ (tokenize norm).headD "" ∈ GENERIC_TOKENS := by
      rw [h]; exact ⟨rfl, hg⟩
    rw [domain_core_candidates]
    simp only []
    rw [if_neg h1, if_pos h2]

/-- Witness for C9: the single generic token "group". -/
theorem C9_generic_single_token_fails_closed_witness :
    domain_core_candidates "group" = [] ∧ tokenize "group" = ["group"] ∧
    "group" ∈ GENERIC_TOKENS :=
  ⟨C9_generic_single_token_fails_closed.2.1 "group" "group" (by decide) (by decide),
    by decide, by decide⟩

/-- Claim C10: `best_email` returns on the first loop iteration, so its
result is always "enquiries@" followed by the domain; no other local part
is ever produced and the "info@" fallback line is unreachable. -/
theorem C10_best_email_always_enquiries (d : String) :
    best_email d = "enquiries@" ++ d := rfl

end V2

namespace V2

/-- The probe trace of the v2 candidate loop is the whole candidate list:
`mx_hosts` is called on every candidate, whatever happened before. -/
theorem v2ScanAux_probes (mx : String → List String) (site : String → Bool) (norm : String) :
    ∀ (l : List String) (best : Option BestRec), (v2ScanAux mx site norm l best).2 = l := by
  intro l
  induction l with
  | nil => intro best; rfl
  | cons d rest ih =>
    intro best
    simp only [v2ScanAux]
    rw [ih]

/-- Specialization of `v2ScanAux_probes` to a whole company scan. -/
theorem v2Scan_probes (mx : String → List String) (site : String → Bool) (norm : String) :
    (v2Scan mx site norm).2 = domain_candidates (domain_core_candidates norm) :=
  v2ScanAux_probes mx site norm _ none

/-- Claim C1 (amended): the v2 run keeps no per-domain cache; the number
of DNS invocations on a domain equals the number of occurrences of that
domain among the candidates of all rows, so a domain reached a second time
is queried a second time. -/
theorem C1_no_memoization_probe_count (mx : String → List String) (site : String → Bool)
    (norms : List String) (d : String) :
    (runProbes mx site norms).count d =
      (norms.map (fun n => (domain_candidates (domain_core_candidates n)).count d)).sum := by
  rw [runProbes, List.count_flatten, List.map_map]
  congr 1
  apply List.map_congr_left
  intro n _
  simp only [Function.comp]
  rw [v2Scan_probes]

/-- Counterexample to C1 as stated: with two rows of the same normalized
name "acme widgets", the candidate domain "acmewidgets.com.au" is checked
twice in one run and the DNS capability is invoked twice on it, not once. -/
theorem C1_counterexample :
    (runProbes (fun _ => ["mx1.example"]) (fun _ => false)
        ["acme widgets", "acme widgets"]).count "acmewidgets.com.au" = 2 ∧
    ¬ ((runProbes (fun _ => ["mx1.example"]) (fun _ => false)
        ["acme widgets", "acme widgets"]).count "acmewidgets.com.au" = 1) := by
  decide

end V2

namespace V1

/-- The v1 loop selects the first verifying candidate and probes nothing
after it. -/
theorem v1Scan_first (hasMx : String → Bool) :
    ∀ (pre : List String) (d : String) (post : List String),
      (∀ x ∈ pre, hasMx x = false) → hasMx d = true →
      v1Scan hasMx (pre ++ d :: post) = (some d, pre ++ [d]) := by
  intro pre
  induction pre with
  | nil =>
    intro d post _ hd
    simp [v1Scan, hd]
  | cons a pre' ih =>
    intro d post hpre hd
    have ha : hasMx a = false := hpre a (by simp)
    simp only [List.cons_append, v1Scan, ha, Bool.false_eq_true, if_false, List.append_eq]
    rw [ih d post (fun x hx => hpre x (by simp [hx])) hd]

end V1

/-- Claim C2 (amended): in the v1 guesser the first candidate with an MX
record is selected and iteration stops — no later candidate is probed; in
the v2 guesser every candidate is probed regardless of earlier
verification (the probe trace is the entire candidate list), the
best-scoring verified domain being kept instead. -/
theorem C2_short_circuit_v1_not_v2 :
    (∀ (hasMx : String → Bool) (pre : List String) (d : String) (post : List String),
      (∀ x ∈ pre, hasMx x = false) → hasMx d = true →
      V1.v1Scan hasMx (pre ++ d :: post) = (some d, pre ++ [d])) ∧
    (∀ (mx : String → List String) (site : String → Bool) (norm : String),
      (V2.v2Scan mx site norm).2 = V2.domain_candidates (V2.domain_core_candidates norm)) :=
  ⟨V1.v1Scan_first, V2.v2Scan_probes⟩

/-- Witness for C2 at concrete inputs. -/
theorem C2_short_circuit_v1_not_v2_witness :
    V1.v1Scan (fun s => s == "b.com") (["a.com"] ++ "b.com" :: ["c.com"]) =
      (some "b.com", ["a.com", "b.com"]) ∧
    (V2.v2Scan (fun _ => ["m"]) (fun _ => false) "acme widgets").2 =
      V2.domain_candidates (V2.domain_core_candidates "acme widgets") :=
  ⟨C2_short_circuit_v1_not_v2.1 (fun s => s == "b.com") ["a.com"] "b.com" ["c.com"]
      (by decide) (by decide),
    C2_short_circuit_v1_not_v2.2 (fun _ => ["m"]) (fun _ => false) "acme widgets"⟩

/-- Counterexample to C2 as stated: in the v2 guesser, for the company
"acme widgets" whose first candidate "acmewidgets.com.au" verifies (the
DNS oracle returns an MX host for every domain), all 8 candidates are
still probed — the claim would allow only 1 probe. -/
theorem C2_counterexample :
    ((V2.v2Scan (fun _ => ["m"]) (fun _ => false) "acme widgets").2).length = 8 ∧
    (V2.domain_candidates (V2.domain_core_candidates "acme widgets")).headD "" =
      "acmewidgets.com.au" ∧
    ((fun _ => ["m"]) : String → List String) "acmewidgets.com.au" ≠ [] := by
  refine ⟨by decide, by decide, by simp⟩

namespace Search

/-- Claim C5: `score_email` returns an integer clamped to [0, 100]; for
expected domain "acme.com.au" the candidate "info@acme.com.au" scores at
least 85 with "domain_match" among its reason tags; "bob@gmail.com" with
no expected-domain match scores at most 50. -/
theorem C5_score_email_clamped_and_cases :
    (∀ (email : String) (expected : Option String),
      0 ≤ (score_email email expected).1 ∧ (score_email email expected).1 ≤ 100) ∧
    (85 ≤ (score_email "info@acme.com.au" (some "acme.com.au")).1 ∧
      containsStr (score_email "info@acme.com.au" (some "acme.com.au")).2 "domain_match" = true) ∧
    (score_email "bob@gmail.com" none).1 ≤ 50 := by
  refine ⟨?_, by decide, by decide⟩
  intro email expected
  rw [score_email.eq_def]
  simp only []
  constructor
  · exact le_max_left _ _
  · exact max_le (by norm_num) (min_le_left _ _)

end Search

/-- `lexLt` is transitive. -/
theorem lexLt_trans :
    ∀ (x y z : List Char), lexLt x y = true → lexLt y z = true → lexLt x z = true := by
  intro x
  induction x with
  | nil =>
    intro y z hxy hyz
    cases y with
    | nil => simp [lexLt] at hxy
    | cons b bs =>
      cases z with
      | nil => simp [lexLt] at hyz
      | cons c cs => simp [lexLt]
  | cons a as ih =>
    intro y z hxy hyz
    cases y with
    | nil => simp [lexLt] at hxy
    | cons b bs =>
      cases z with
      | nil => simp [lexLt] at hyz
      | cons c cs =>
        simp only [lexLt] at hxy hyz ⊢
        by_cases hab : a < b
        · by_cases hbc : b < c
          · rw [if_pos (lt_trans hab hbc)]
          · rw [if_neg hbc] at hyz
            by_cases hcb : c < b
            · rw [if_pos hcb] at hyz
              simp at hyz
            · have hbceq : b = c := le_antisymm (not_lt.mp hcb) (not_lt.mp hbc)
              rw [if_pos (hbceq ▸ hab)]
        · rw [if_neg hab] at hxy
          by_cases hba : b < a
          · rw [if_pos hba] at hxy
            simp at hxy
          · rw [if_neg hba] at hxy
            have habeq : a = b := le_antisymm (not_lt.mp hba) (not_lt.mp hab)
            subst habeq
            by_cases hac : a < c
            · rw [if_pos hac]
            · rw [if_neg hac] at hyz ⊢
              by_cases hca : c < a
              · rw [if_pos hca] at hyz
                simp at hyz
              · rw [if_neg hca] at hyz ⊢
                exact ih bs cs hxy hyz

/-- Two character lists with `lexLt` false both ways are equal. -/
theorem lexLt_eq_of_not_lt :
    ∀ (x y : List Char), lexLt x y = false → lexLt y x = false → x = y := by
  intro x
  induction x with
  | nil =>
    intro y h1 _
    cases y with
    | nil => rfl
    | cons b bs => simp [lexLt] at h1
  | cons a as ih =>
    intro y h1 h2
    cases y with
    | nil => simp [lexLt] at h2
    | cons b bs =>
      simp only [lexLt] at h1 h2
      by_cases hab : a < b
      · rw [if_pos hab] at h1
        simp at h1
      · rw [if_neg hab] at h1
        by_cases hba : b < a
        · rw [if_pos hba] at h2
          simp at h2
        · rw [if_neg hba] at h1
          rw [if_neg hba, if_neg hab] at h2
          have habeq : a = b := le_antisymm (not_lt.mp hba) (not_lt.mp hab)
          rw [habeq, ih bs h1 h2]

/-- `strLe` is total. -/
theorem strLe_total (a b : String) : strLe a b = true ∨ strLe b a = true := by
  by_cases h1 : lexLt a.data b.data = true
  · exact Or.inl (by simp [strLe, h1])
  · by_cases h2 : lexLt b.data a.data = true
    · exact Or.inr (by simp [strLe, h2])
    · have he : a.data = b.data :=
        lexLt_eq_of_not_lt _ _ (by simpa using h1) (by simpa using h2)
      exact Or.inl (by simp [strLe, strDataInj he])

/-- `strLe` is transitive. -/
theorem strLe_trans {a b c : String} (h1 : strLe a b = true) (h2 : strLe b c = true) :
    strLe a c = true := by
  simp only [strLe, Bool.or_eq_true, beq_iff_eq] at h1 h2 ⊢
  rcases h1 with h1 | rfl
  · rcases h2 with h2 | rfl
    · exact Or.inl (lexLt_trans _ _ _ h1 h2)
    · exact Or.inl h1
  · exact h2

/-- `pySorted` permutes its input. -/
theorem pySorted_perm (l : List String) : (pySorted l).Perm l :=
  List.perm_insertionSort _ l

/-- `pySorted` output is pairwise ordered by `strLe`. -/
theorem pySorted_sorted (l : List String) :
    (pySorted l).Pairwise (fun a b => strLe a b = true) := by
  have i1 : IsTotal String (fun a b => strLe a b = true) := ⟨strLe_total⟩
  have i2 : IsTrans String (fun a b => strLe a b = true) :=
    ⟨fun _ _ _ h1 h2 => strLe_trans h1 h2⟩
  exact @List.sorted_insertionSort String (fun a b => strLe a b = true) _ i1 i2 l

/-- Specification of the shared extraction pipeline: the result is
duplicate-free, sorted, and consists of lower-cased matches none of which
contains a configured placeholder marker. -/
theorem extractClean_spec (hints ms : List String) :
    (extractClean hints ms).Nodup ∧
    (extractClean hints ms).Pairwise (fun a b => strLe a b = true) ∧
    ∀ e ∈ extractClean hints ms,
      (∃ m ∈ ms, e = pyLower m) ∧ ∀ bad ∈ hints, containsStr e bad = false := by
  unfold extractClean
  simp only []
  refine ⟨?_, pySorted_sorted _, ?_⟩
  · exact ((pySorted_perm _).nodup_iff).mpr (List.Nodup.filter _ (List.nodup_dedup _))
  · intro e he
    have he' := ((pySorted_perm _).mem_iff).mp he
    rcases List.mem_filter.mp he' with ⟨hmem, hcond⟩
    constructor
    · rcases List.mem_map.mp (List.mem_dedup.mp hmem) with ⟨m, hm, heq⟩
      exact ⟨m, hm, heq.symm⟩
    · intro bad hbad
      rw [Bool.not_eq_eq_eq_not, Bool.not_true, List.any_eq_false] at hcond
      simpa using hcond bad hbad

/-- Claim C6: for every page content (abstracted as its list of regex
matches), both site harvesters return only lower-cased matches, never an
address containing a configured placeholder marker, and the returned list
is deduplicated and sorted lexicographically. -/
theorem C6_harvester_filtered_lowered_sorted :
    (∀ ms : List String,
      (GV.extract_emails ms).Nodup ∧
      (GV.extract_emails ms).Pairwise (fun a b => strLe a b = true) ∧
      ∀ e ∈ GV.extract_emails ms,
        (∃ m ∈ ms, e = pyLower m) ∧
        ∀ bad ∈ GV.BAD_EMAIL_HINTS, containsStr e bad = false) ∧
    (∀ ms : List String,
      (Scrape.extract_emails ms).Nodup ∧
      (Scrape.extract_emails ms).Pairwise (fun a b => strLe a b = true) ∧
      ∀ e ∈ Scrape.extract_emails ms,
        (∃ m ∈ ms, e = pyLower m) ∧
        ∀ bad ∈ Scrape.BAD_EMAIL_HINTS, containsStr e bad = false) :=
  ⟨fun ms => extractClean_spec GV.BAD_EMAIL_HINTS ms,
    fun ms => extractClean_spec Scrape.BAD_EMAIL_HINTS ms⟩

/-- Witness for C6: one upper-cased genuine address and one placeholder
address; the harvester returns exactly the lowered genuine one. -/
theorem C6_harvester_filtered_lowered_sorted_witness :
    (GV.extract_emails ["Info@Acme.COM", "bob@example.com"]).Nodup ∧
    ((∃ m ∈ ["Info@Acme.COM", "bob@example.com"], "info@acme.com" = pyLower m) ∧
      ∀ bad ∈ GV.BAD_EMAIL_HINTS, containsStr "info@acme.com" bad = false) ∧
    GV.extract_emails ["Info@Acme.COM", "bob@example.com"] = ["info@acme.com"] :=
  ⟨(C6_harvester_filtered_lowered_sorted.1 ["Info@Acme.COM", "bob@example.com"]).1,
    (C6_harvester_filtered_lowered_sorted.1 ["Info@Acme.COM", "bob@example.com"]).2.2
      "info@acme.com" (by decide),
    by decide⟩

/-- Counterexample to C7 as stated: on a page whose only regex match is
"Bob@Example.com", the search-path extractor returns it verbatim (no
lower-casing, no placeholder filter) while the site harvester's extractor
returns nothing, so the two result sets differ. -/
theorem C7_counterexample :
    "Bob@Example.com" ∈ Search.extract_emails_from_text ["Bob@Example.com"] ∧
    "Bob@Example.com" ∉ GV.extract_emails ["Bob@Example.com"] ∧
    GV.extract_emails ["Bob@Example.com"] = [] := by
  refine ⟨by decide, by decide, by decide⟩

/-- Claim C7 (amended): the search extractor returns the raw matches as a
set, with no lower-casing and no placeholder filtering; the two extractors
agree as sets exactly on match lists that are already lower-case and free
of placeholder markers. -/
theorem C7_extractors_agree_on_clean_input (ms : List String)
    (hlow : ∀ m ∈ ms, pyLower m = m)
    (hclean : ∀ m ∈ ms, ∀ bad ∈ GV.BAD_EMAIL_HINTS, containsStr m bad = false) :
    ∀ e, e ∈ Search.extract_emails_from_text ms ↔ e ∈ GV.extract_emails ms := by
  intro e
  unfold Search.extract_emails_from_text GV.extract_emails extractClean
  simp only []
  have hmap : ms.map pyLower = ms := by
    rw [List.map_congr_left hlow]
    simp
  rw [hmap]
  constructor
  · intro he
    rw [(pySorted_perm _).mem_iff]
    refine List.mem_filter.mpr ⟨he, ?_⟩
    have hc : ∀ bad ∈ GV.BAD_EMAIL_HINTS, containsStr e bad = false :=
      hclean e (List.mem_dedup.mp he)
    rw [Bool.not_eq_eq_eq_not, Bool.not_true, List.any_eq_false]
    intro bad hbad
    simp [hc bad hbad]
  · intro he
    rw [(pySorted_perm _).mem_iff] at he
    exact (List.mem_filter.mp he).1

/-- Witness for the amended C7 on a clean match list. -/
theorem C7_extractors_agree_on_clean_input_witness :
    ("info@acme.com" ∈ Search.extract_emails_from_text ["info@acme.com"] ↔
      "info@acme.com" ∈ GV.extract_emails ["info@acme.com"]) ∧
    "info@acme.com" ∈ GV.extract_emails ["info@acme.com"] :=
  ⟨C7_extractors_agree_on_clean_input ["info@acme.com"] (by decide) (by decide)
      "info@acme.com",
    by decide⟩

namespace Search

/-- The batch fold appends exactly one output row per input row. -/
theorem runBatch_eq_map (search : String → Except String (List String))
    (fetchP : String → Option String) (regexM : String → List String) (links : Nat) :
    ∀ rows : List InRow,
      runBatch search fetchP regexM links rows =
        rows.map (processRow search fetchP regexM links) := by
  have key : ∀ (rows : List InRow) (acc : List OutRow),
      rows.foldl (fun acc row => acc ++ [processRow search fetchP regexM links row]) acc =
        acc ++ rows.map (processRow search fetchP regexM links) := by
    intro rows
    induction rows with
    | nil => intro acc; simp
    | cons r rest ih =>
      intro acc
      simp only [List.foldl_cons, List.map_cons]
      rw [ih]
      simp
  intro rows
  rw [runBatch, key]
  simp

/-- Claim C8: every company yields exactly one outcome row — the batch is
a map over the input rows, so no per-company failure escapes the loop; and
whenever the search capability raises, that company's row records
`search_error:` followed by the exception's type name, with empty email
and zero confidence, and processing continues with the next company. -/
theorem C8_search_error_caught_batch_continues
    (search : String → Except String (List String))
    (fetchP : String → Option String) (regexM : String → List String)
    (links : Nat) (rows : List InRow) :
    (runBatch search fetchP regexM links rows).length = rows.length ∧
    runBatch search fetchP regexM links rows =
      rows.map (processRow search fetchP regexM links) ∧
    ∀ row ∈ rows, ∀ en,
      pyStrip (pyOr row.legal_name row.business_name) ≠ "" →
      search (build_query (pyStrip (pyOr row.legal_name row.business_name))
        (pyStrip row.main_state) (pyStrip row.main_postcode)) = .error en →
      processRow search fetchP regexM links row =
        { abn := pyStrip row.abn,
          legal_name := pyStrip (pyOr row.legal_name row.business_name),
          email := "", confidence := 0, source_url := "",
          reason := "search_error:" ++ en,
          query := build_query (pyStrip (pyOr row.legal_name row.business_name))
            (pyStrip row.main_state) (pyStrip row.main_postcode) } := by
  refine ⟨?_, runBatch_eq_map search fetchP regexM links rows, ?_⟩
  · rw [runBatch_eq_map]
    simp
  · intro row _ en hname hsearch
    rw [processRow.eq_def]
    simp only []
    rw [if_neg hname, hsearch]

/-- Witness for C8: a two-row batch whose search capability always raises
`Timeout`; both rows are processed and the first records the error. -/
theorem C8_search_error_caught_batch_continues_witness :
    (runBatch (fun _ => .error "Timeout") (fun _ => none) (fun _ => []) 2
        [⟨"1", "Acme Pty", "", "NSW", "2000"⟩, ⟨"2", "Beta Ltd", "", "", ""⟩]).length = 2 ∧
    processRow (fun _ => .error "Timeout") (fun _ => none) (fun _ => []) 2
        ⟨"1", "Acme Pty", "", "NSW", "2000"⟩ =
      { abn := pyStrip "1",
        legal_name := pyStrip (pyOr "Acme Pty" ""),
        email := "", confidence := 0, source_url := "",
        reason := "search_error:" ++ "Timeout",
        query := build_query (pyStrip (pyOr "Acme Pty" "")) (pyStrip "NSW") (pyStrip "2000") } :=
  ⟨(C8_search_error_caught_batch_continues (fun _ => .error "Timeout") (fun _ => none)
      (fun _ => []) 2
      [⟨"1", "Acme Pty", "", "NSW", "2000"⟩, ⟨"2", "Beta Ltd", "", "", ""⟩]).1,
    (C8_search_error_caught_batch_continues (fun _ => .error "Timeout") (fun _ => none)
      (fun _ => []) 2
      [⟨"1", "Acme Pty", "", "NSW", "2000"⟩, ⟨"2", "Beta Ltd", "", "", ""⟩]).2.2
      ⟨"1", "Acme Pty", "", "NSW", "2000"⟩ (by decide) "Timeout" (by decide) rfl⟩

end Search

namespace V1

/-- Membership in the inner suffix fold of the v1 generator. -/
theorem mem_suffix_fold {c : String} :
    ∀ (sufs : List String) (acc : List String) (x : String),
      x ∈ sufs.foldl (fun acc2 suf => pyInsert acc2 (c ++ suf)) acc →
      x ∈ acc ∨ ∃ suf ∈ sufs, x = c ++ suf := by
  intro sufs
  induction sufs with
  | nil => intro acc x h; exact Or.inl h
  | cons s rest ih =>
    intro acc x h
    simp only [List.foldl_cons] at h
    rcases ih _ x h with h | ⟨suf, hs, he⟩
    · rcases mem_pyInsert h with h | h
      · exact Or.inl h
      · exact Or.inr ⟨s, by simp, h⟩
    · exact Or.inr ⟨suf, by simp [hs], he⟩

/-- Membership in the outer core fold of the v1 generator: every element
comes from the accumulator or from a core of length at least 4 crossed
with some suffix.  No upper bound on the core length is checked. -/
theorem mem_core_fold :
    ∀ (cores : List String) (acc : List String) (x : String),
      x ∈ cores.foldl
        (fun acc core =>
          if 4 ≤ core.length then
            DOMAIN_SUFFIXES_AU.foldl (fun acc2 suf => pyInsert acc2 (core ++ suf)) acc
          else acc) acc →
      x ∈ acc ∨ ∃ core ∈ cores, 4 ≤ core.length ∧ ∃ suf ∈ DOMAIN_SUFFIXES_AU, x = core ++ suf := by
  intro cores
  induction cores with
  | nil => intro acc x h; exact Or.inl h
  | cons c rest ih =>
    intro acc x h
    simp only [List.foldl_cons] at h
    rcases ih _ x h with h | ⟨core, hc, hlen, suf, hs, he⟩
    · by_cases hg : 4 ≤ c.length
      · rw [if_pos hg] at h
        rcases mem_suffix_fold _ _ _ h with h | ⟨suf, hs, he⟩
        · exact Or.inl h
        · exact Or.inr ⟨c, by simp, hg, suf, hs, he⟩
      · rw [if_neg hg] at h
        exact Or.inl h
    · exact Or.inr ⟨core, by simp [hc], hlen, suf, hs, he⟩

/-- Every v1 candidate is the joined or the dashed core — of length at
least 4, with no maximum — followed by a configured suffix. -/
theorem mem_generate_domain_candidates {base cand : String}
    (h : cand ∈ generate_domain_candidates base) :
    ∃ core suf, suf ∈ DOMAIN_SUFFIXES_AU ∧ cand = core ++ suf ∧ 4 ≤ core.length ∧
      (core = joinedOf (tokenize base) ∨ core = dashedOf (tokenize base)) := by
  rw [generate_domain_candidates] at h
  rcases mem_core_fold _ _ _ h with h | ⟨core, hc, hlen, suf, hs, he⟩
  · exact absurd h (List.not_mem_nil _)
  · refine ⟨core, suf, hs, he, hlen, ?_⟩
    rcases mem_pyInsert hc with hc | rfl
    · rcases mem_pyInsert hc with hc | rfl
      · exact absurd hc (List.not_mem_nil _)
      · exact Or.inl rfl
    · exact Or.inr rfl

end V1

/-- Counterexample to C4 as stated: the claim also covers the v1 generator
(sysiphe_guess_emails.py, lines 38–48), which checks only the 4-character
minimum and no maximum — a 33-character single-token name yields a
33-character core, exceeding both configured ceilings (24 joined /
28 dashed). -/
theorem C4_counterexample :
    ("abcdefghijklmnopqrstuvwxyzabcdefg" ++ ".com.au") ∈
      V1.generate_domain_candidates "abcdefghijklmnopqrstuvwxyzabcdefg" ∧
    ("abcdefghijklmnopqrstuvwxyzabcdefg" : String).length = 33 ∧
    ¬ ("abcdefghijklmnopqrstuvwxyzabcdefg" : String).length ≤ 28 :=
  ⟨by decide, by decide, by decide⟩

/-- Claim C4 (amended): both generators reject cores shorter than 4
characters; the v2 generator additionally enforces the maxima (24 for the
joined core, 28 for the dashed core, 18 for the two-token abbreviation),
while the v1 generator enforces no maximum at all — its joined or dashed
cores may be arbitrarily long. -/
theorem C4_core_min_always_max_only_v2 :
    (∀ norm cand : String,
      cand ∈ V2.domain_candidates (V2.domain_core_candidates norm) →
      ∃ core suf, core ∈ V2.domain_core_candidates norm ∧ suf ∈ V2.DOMAIN_SUFFIXES_AU ∧
        cand = core ++ suf ∧ 4 ≤ core.length ∧ core.length ≤ 28 ∧
        (core.length ≤ 24 ∨ core = dashedOf (tokenize norm))) ∧
    (∀ base cand : String,
      cand ∈ V1.generate_domain_candidates base →
      ∃ core suf, suf ∈ V1.DOMAIN_SUFFIXES_AU ∧ cand = core ++ suf ∧ 4 ≤ core.length ∧
        (core = joinedOf (tokenize base) ∨ core = dashedOf (tokenize base))) :=
  ⟨fun _ _ h => V2.candidate_core_bounds h,
    fun _ _ h => V1.mem_generate_domain_candidates h⟩

/-- Witness for the amended C4: a v2 candidate of "acme widgets" and the
over-long v1 candidate of the 33-character name. -/
theorem C4_core_min_always_max_only_v2_witness :
    (∃ core suf, core ∈ V2.domain_core_candidates "acme widgets" ∧
      suf ∈ V2.DOMAIN_SUFFIXES_AU ∧ "acme-widgets.com.au" = core ++ suf ∧
      4 ≤ core.length ∧ core.length ≤ 28 ∧
      (core.length ≤ 24 ∨ core = dashedOf (tokenize "acme widgets"))) ∧
    (∃ core suf, suf ∈ V1.DOMAIN_SUFFIXES_AU ∧
      ("abcdefghijklmnopqrstuvwxyzabcdefg" ++ ".com.au") = core ++ suf ∧
      4 ≤ core.length ∧
      (core = joinedOf (tokenize "abcdefghijklmnopqrstuvwxyzabcdefg") ∨
        core = dashedOf (tokenize "abcdefghijklmnopqrstuvwxyzabcdefg"))) :=
  ⟨C4_core_min_always_max_only_v2.1 "acme widgets" "acme-widgets.com.au" (by decide),
    C4_core_min_always_max_only_v2.2 "abcdefghijklmnopqrstuvwxyzabcdefg"
      ("abcdefghijklmnopqrstuvwxyzabcdefg" ++ ".com.au") (by decide)⟩
